import Mathlib

/-!
# Host/GPU interchange structs of the Metal bug reproductions

The repository's payload is three `ShaderDefinitions.h` headers, one per
reproduction project (occlusion query, stencil clear, texture-to-buffer copy).
Each header only declares plain structs that host code fills and shader code
reads.

* The declarations are embedded as data (`StructDecl`), field by field, from
  the headers.
* The field types `vector_float2`, `vector_float4` and `uint` come from headers
  outside the repository; their component counts, element widths and natural
  alignments are recorded in `FieldTy.lanes`, `FieldTy.elem`, `ScalarTy.width`
  and `FieldTy.align`.
* `placeFields`, `alignofStruct` and `sizeofStruct` are the sequential struct
  layout rule of C: every field at the first offset after the previous field
  that is a multiple of its alignment, the struct rounded up to its own
  alignment.  The rule takes the alignments as an argument; most results hold
  for every assignment in which each type's alignment divides its size
  (`DividesSize`), the natural alignments among them.
* `write` and `read` are the object representation: components are 32-bit
  patterns, stored least significant byte first at the field's offset.
* `gpuLayout` is the layout of the same declaration as the GPU side computes it,
  over the shading-language types `float2`, `float4` and `uint`, to compare with
  `hostLayout`.
-/

namespace MetalTests

/-! ## Field types -/

/-- Scalar element kinds the fields are built from. -/
inductive ScalarTy where
  | float32
  | uint32
deriving DecidableEq, Repr

/-- Modelled from the spec: the field types `vector_float2` and `vector_float4`
(declared by `<simd/simd.h>`, which the headers include) and `uint`, which the
headers use but do not declare. -/
inductive FieldTy where
  | vector_float2
  | vector_float4
  | uint
deriving DecidableEq, Repr

/-- Modelled from the spec: element kind of each field type (section 6 of the
specification: the vectors hold float32, `uint` is a uint32). -/
def FieldTy.elem : FieldTy → ScalarTy
  | .vector_float2 => .float32
  | .vector_float4 => .float32
  | .uint => .uint32

/-- Modelled from the spec: number of components of each field type. -/
def FieldTy.lanes : FieldTy → Nat
  | .vector_float2 => 2
  | .vector_float4 => 4
  | .uint => 1

/-- Width in bytes of one element: both element kinds are 32 bits wide. -/
def ScalarTy.width : ScalarTy → Nat
  | .float32 => 4
  | .uint32 => 4

/-- Width in bytes of a field of the given type. -/
def FieldTy.size (t : FieldTy) : Nat := t.lanes * t.elem.width

/-- Modelled from the spec: the alignment of each field type, which the headers
do not declare: the natural alignment, equal to the size for the two simd
vectors and to 4 for `uint` (the struct alignments 16, 8, 16 and 4 follow). -/
def FieldTy.align : FieldTy → Nat
  | .vector_float2 => 8
  | .vector_float4 => 16
  | .uint => 4

/-! ## Declarations -/

/-- One declared member of a struct. -/
structure Field where
  name : String
  ty : FieldTy
deriving DecidableEq, Repr

/-- A struct declaration: its tag and its members in declaration order. -/
structure StructDecl where
  name : String
  fields : List Field
deriving DecidableEq, Repr

namespace Occlusion

/-- The struct `Vertex` of `metal-occlusion-issue/.../ShaderDefinitions.h`. -/
def Vertex : StructDecl :=
  { name := "Vertex"
    fields := [⟨"color", .vector_float4⟩, ⟨"pos", .vector_float4⟩] }

/-- The struct `CombineVisibilityResultOptions` of the same header. -/
def CombineVisibilityResultOptions : StructDecl :=
  { name := "CombineVisibilityResultOptions"
    fields := [⟨"startOffset", .uint⟩, ⟨"numOffsets", .uint⟩] }

/-- The header `metal-occlusion-issue/metaltest/metaltest/ShaderDefinitions.h`. -/
def ShaderDefinitions : List StructDecl := [Vertex, CombineVisibilityResultOptions]

end Occlusion

namespace StencilClear

/-- The struct `Vertex` of `metal-stencil-clear-issue/.../ShaderDefinitions.h`. -/
def Vertex : StructDecl :=
  { name := "Vertex"
    fields := [⟨"pos", .vector_float2⟩] }

/-- The header `metal-stencil-clear-issue/metaltest/metaltest/ShaderDefinitions.h`. -/
def ShaderDefinitions : List StructDecl := [Vertex]

end StencilClear

namespace TextureToBuffer

/-- The struct `Vertex` of `metal-texture-to-buffer-issue/.../ShaderDefinitions.h`. -/
def Vertex : StructDecl :=
  { name := "Vertex"
    fields := [⟨"pos", .vector_float4⟩] }

/-- The header `metal-texture-to-buffer-issue/metaltest/metaltest/ShaderDefinitions.h`. -/
def ShaderDefinitions : List StructDecl := [Vertex]

end TextureToBuffer

/-- The three headers of the repository. -/
def headers : List (List StructDecl) :=
  [Occlusion.ShaderDefinitions, StencilClear.ShaderDefinitions,
    TextureToBuffer.ShaderDefinitions]

/-- The four structs the headers declare. -/
def allStructs : List StructDecl :=
  [Occlusion.Vertex, StencilClear.Vertex, TextureToBuffer.Vertex,
    Occlusion.CombineVisibilityResultOptions]

/-- Whether a header declares a struct with the given tag. -/
def declares (h : List StructDecl) (tag : String) : Bool :=
  h.any (fun d => d.name == tag)

/-- The declaration with the given tag in a header, if any. -/
def lookup (h : List StructDecl) (tag : String) : Option StructDecl :=
  h.find? (fun d => d.name == tag)

/-- Total number of scalar components of a struct. -/
def componentCount (d : StructDecl) : Nat :=
  (d.fields.map (fun f => f.ty.lanes)).sum

/-- Sum of the widths of the fields of a struct. -/
def sumFieldWidths (d : StructDecl) : Nat :=
  (d.fields.map (fun f => f.ty.size)).sum

/-! ## Struct layout -/

/-- The least multiple of `a` that is at least `n`. -/
def alignUp (n a : Nat) : Nat := (n + a - 1) / a * a

/-- Sequential placement: each field goes to the first offset at or after the
end of the previous field that is a multiple of the field's alignment. -/
def placeFields (al : FieldTy → Nat) : Nat → List Field → List (Field × Nat)
  | _, [] => []
  | cur, f :: fs =>
    (f, alignUp cur (al f.ty)) :: placeFields al (alignUp cur (al f.ty) + f.ty.size) fs

/-- Offset just past the last placed field. -/
def dataEnd (al : FieldTy → Nat) : Nat → List Field → Nat
  | cur, [] => cur
  | cur, f :: fs => dataEnd al (alignUp cur (al f.ty) + f.ty.size) fs

/-- Alignment of a struct: the largest alignment among its fields. -/
def alignofStruct (al : FieldTy → Nat) (d : StructDecl) : Nat :=
  (d.fields.map (fun f => al f.ty)).foldl max 1

/-- Size of a struct: the end of its last field rounded up to its alignment. -/
def sizeofStruct (al : FieldTy → Nat) (d : StructDecl) : Nat :=
  alignUp (dataEnd al 0 d.fields) (alignofStruct al d)

/-- Bytes added after the last field to reach the struct size. -/
def tailPadding (al : FieldTy → Nat) (d : StructDecl) : Nat :=
  sizeofStruct al d - dataEnd al 0 d.fields

/-- Offset of the named field, if the struct has it. -/
def offsetofField (al : FieldTy → Nat) (d : StructDecl) (field : String) : Option Nat :=
  ((placeFields al 0 d.fields).find? (fun p => p.1.name == field)).map Prod.snd

/-- The byte range `(offset, width)` of every field, in declaration order. -/
def fieldRanges (al : FieldTy → Nat) (d : StructDecl) : List (Nat × Nat) :=
  (placeFields al 0 d.fields).map (fun p => (p.2, p.1.ty.size))

/-- An alignment assignment under which every field type's alignment divides
its size; the natural alignments are one such assignment. -/
def DividesSize (al : FieldTy → Nat) : Prop := ∀ t : FieldTy, al t ∣ t.size

/-! ## Struct values and their bytes -/

/-- One byte of memory. -/
abbrev Byte := Fin 256

/-- The 32-bit pattern of one component (a float32 or a uint32). -/
abbrev Word32 := Fin 4294967296

/-- The four bytes of a 32-bit pattern, least significant first. -/
def toLE32 (w : Word32) : List Byte :=
  [⟨w.val % 256, Nat.mod_lt _ (by decide)⟩,
   ⟨w.val / 256 % 256, Nat.mod_lt _ (by decide)⟩,
   ⟨w.val / 65536 % 256, Nat.mod_lt _ (by decide)⟩,
   ⟨w.val / 16777216 % 256, Nat.mod_lt _ (by decide)⟩]

/-- The 32-bit pattern held by four bytes, least significant first. -/
def fromLE32 (b0 b1 b2 b3 : Byte) : Word32 :=
  ⟨b0.val + 256 * b1.val + 65536 * b2.val + 16777216 * b3.val, by omega⟩

/-- A struct value: for every field, in declaration order, its components. -/
abbrev Value := List (List Word32)

/-- The value has one entry per field, each with the field's component count. -/
def WellShaped (d : StructDecl) (v : Value) : Prop :=
  v.map List.length = d.fields.map (fun f => f.ty.lanes)

instance (d : StructDecl) (v : Value) : Decidable (WellShaped d v) := by
  unfold WellShaped; infer_instance

/-- Store the bytes `bs` into the buffer from offset `off` on. -/
def writeBytes (buf : List Byte) : Nat → List Byte → List Byte
  | _, [] => buf
  | off, b :: bs => writeBytes (buf.set off b) (off + 1) bs

/-- Store the components of one field at its offset. -/
def writeField (buf : List Byte) (off : Nat) (ws : List Word32) : List Byte :=
  writeBytes buf off (ws.flatMap toLE32)

/-- Load the 32-bit pattern at an offset; bytes outside the buffer read as 0. -/
def readWord (buf : List Byte) (off : Nat) : Word32 :=
  fromLE32 (buf.getD off 0) (buf.getD (off + 1) 0) (buf.getD (off + 2) 0)
    (buf.getD (off + 3) 0)

/-- Load the components of one field from its offset. -/
def readField (buf : List Byte) (off : Nat) (t : FieldTy) : List Word32 :=
  (List.range t.lanes).map (fun i => readWord buf (off + t.elem.width * i))

/-- Store every field of a value at its offset, over a given buffer. -/
def writeFields (buf : List Byte) : List (Field × Nat) → Value → List Byte
  | p :: ps, ws :: v => writeFields (writeField buf p.2 ws) ps v
  | _, _ => buf

/-- The bytes of a struct value: a buffer of the struct's size, zero filled,
with every field stored at its offset. -/
def write (al : FieldTy → Nat) (d : StructDecl) (v : Value) : List Byte :=
  writeFields (List.replicate (sizeofStruct al d) 0) (placeFields al 0 d.fields) v

/-- The struct value held by a buffer, read field by field. -/
def read (al : FieldTy → Nat) (d : StructDecl) (buf : List Byte) : Value :=
  (placeFields al 0 d.fields).map (fun p => readField buf p.2 p.1.ty)

/-! ## Arrays of structs -/

/-- Offset of element `i` of an array: elements are laid one struct size apart. -/
def elemOffset (al : FieldTy → Nat) (d : StructDecl) (i : Nat) : Nat :=
  i * sizeofStruct al d

/-- Bytes occupied by an array of `n` elements. -/
def arrayBytes (al : FieldTy → Nat) (d : StructDecl) (n : Nat) : Nat :=
  n * sizeofStruct al d

/-! ## Vocabulary of the properties -/

/-- Cumulative offsets, in the specification's sense: the offset of each field
when the fields are laid end to end from `acc` on, with no gap. -/
def cumulativeOffsets : Nat → List Field → List Nat
  | _, [] => []
  | acc, f :: fs => acc :: cumulativeOffsets (acc + f.ty.size) fs

/-- Two byte ranges `(offset, width)` share no byte. -/
def RangesDisjoint (r s : Nat × Nat) : Prop := r.1 + r.2 ≤ s.1 ∨ s.1 + s.2 ≤ r.1

/-! ## The two sides of the boundary -/

/-- Modelled from the spec: the shading-language types the GPU side reads the
fields as; the repository holds no shader source. -/
inductive GpuTy where
  | float2
  | float4
  | uint
deriving DecidableEq, Repr

/-- Modelled from the spec: the shading-language type under which the GPU side
sees each field type of the headers. -/
def FieldTy.toGpu : FieldTy → GpuTy
  | .vector_float2 => .float2
  | .vector_float4 => .float4
  | .uint => .uint

/-- Modelled from the spec: size in bytes of each shading-language type
(section 6 of the specification: 2 x float32, 4 x float32, uint32). -/
def GpuTy.size : GpuTy → Nat
  | .float2 => 8
  | .float4 => 16
  | .uint => 4

/-- Modelled from the spec: alignment of each shading-language type, which the
repository does not hold: the vectors are aligned to their size, `uint` to 4. -/
def GpuTy.align : GpuTy → Nat
  | .float2 => 8
  | .float4 => 16
  | .uint => 4

/-- The alignment the GPU side gives each field type of the headers. -/
def gpuAlign (t : FieldTy) : Nat := t.toGpu.align

/-- A computed layout: size and alignment of the struct and, for every field in
declaration order, its name, offset and width. -/
structure Layout where
  size : Nat
  align : Nat
  fields : List (String × Nat × Nat)
deriving DecidableEq, Repr

/-- The layout the host side computes: the C rule at the alignments and widths
of the host field types. -/
def hostLayout (d : StructDecl) : Layout :=
  { size := sizeofStruct FieldTy.align d
    align := alignofStruct FieldTy.align d
    fields := (placeFields FieldTy.align 0 d.fields).map
      (fun p => (p.1.name, p.2, p.1.ty.size)) }

/-- Placement on the GPU side: the same sequential rule over the sizes and
alignments of the shading-language types. -/
def gpuPlace : Nat → List Field → List (String × Nat × Nat)
  | _, [] => []
  | cur, f :: fs =>
    (f.name, alignUp cur f.ty.toGpu.align, f.ty.toGpu.size)
      :: gpuPlace (alignUp cur f.ty.toGpu.align + f.ty.toGpu.size) fs

/-- Offset just past the last field as the GPU side places it. -/
def gpuEnd : Nat → List Field → Nat
  | cur, [] => cur
  | cur, f :: fs => gpuEnd (alignUp cur f.ty.toGpu.align + f.ty.toGpu.size) fs

/-- Alignment of a struct on the GPU side: the largest alignment of a member. -/
def gpuAlignof (d : StructDecl) : Nat :=
  (d.fields.map (fun f => f.ty.toGpu.align)).foldl max 1

/-- The layout the GPU side computes for the same declaration. -/
def gpuLayout (d : StructDecl) : Layout :=
  { size := alignUp (gpuEnd 0 d.fields) (gpuAlignof d)
    align := gpuAlignof d
    fields := gpuPlace 0 d.fields }

/-! ## Arithmetic of the layout rule -/

theorem alignUp_of_dvd {n a : Nat} (ha : 0 < a) (h : a ∣ n) : alignUp n a = n := by
  obtain ⟨k, rfl⟩ := h
  unfold alignUp
  have hk : (a * k + a - 1) / a = k := by
    rw [Nat.add_sub_assoc (by omega), Nat.mul_add_div ha, Nat.div_eq_of_lt (by omega)]
    simp
  rw [hk, Nat.mul_comm]

theorem alignUp_zero {a : Nat} : alignUp 0 a = 0 := by
  rcases Nat.eq_zero_or_pos a with h | h
  · simp [alignUp, h]
  · exact alignUp_of_dvd h (Nat.dvd_zero a)

theorem DividesSize.pos {al : FieldTy → Nat} (h : DividesSize al) (t : FieldTy) :
    0 < al t := by
  have ht := h t
  rcases Nat.eq_zero_or_pos (al t) with h0 | h0
  · rw [h0] at ht
    cases t <;> simp [FieldTy.size, FieldTy.lanes, FieldTy.elem, ScalarTy.width] at ht
  · exact h0

theorem natural_dividesSize : DividesSize FieldTy.align := by
  intro t
  cases t <;> decide

/-! ## The layout of each struct under any admissible alignment -/

theorem layout_occlusion_vertex {al : FieldTy → Nat} (h : DividesSize al) :
    placeFields al 0 Occlusion.Vertex.fields
        = [(⟨"color", .vector_float4⟩, 0), (⟨"pos", .vector_float4⟩, 16)]
      ∧ dataEnd al 0 Occlusion.Vertex.fields = 32
      ∧ alignofStruct al Occlusion.Vertex = al .vector_float4
      ∧ sizeofStruct al Occlusion.Vertex = 32 := by
  have hd : al .vector_float4 ∣ 16 := h .vector_float4
  have hp := h.pos .vector_float4
  have e16 : alignUp 16 (al .vector_float4) = 16 := alignUp_of_dvd hp hd
  have e32 : alignUp 32 (al .vector_float4) = 32 :=
    alignUp_of_dvd hp (Dvd.dvd.trans hd (by decide))
  have hs : FieldTy.vector_float4.size = 16 := rfl
  have hm : max (max 1 (al .vector_float4)) (al .vector_float4) = al .vector_float4 := by
    omega
  have ha : alignofStruct al Occlusion.Vertex = al .vector_float4 := by
    simp only [alignofStruct, Occlusion.Vertex, List.map, List.foldl, hm]
  have he : dataEnd al 0 Occlusion.Vertex.fields = 32 := by
    simp only [Occlusion.Vertex, dataEnd, alignUp_zero, hs, Nat.zero_add, e16]
  refine ⟨?_, he, ha, ?_⟩
  · simp only [Occlusion.Vertex, placeFields, alignUp_zero, hs, Nat.zero_add, e16]
  · rw [sizeofStruct, he, ha, e32]

theorem layout_stencil_vertex {al : FieldTy → Nat} (h : DividesSize al) :
    placeFields al 0 StencilClear.Vertex.fields = [(⟨"pos", .vector_float2⟩, 0)]
      ∧ dataEnd al 0 StencilClear.Vertex.fields = 8
      ∧ alignofStruct al StencilClear.Vertex = al .vector_float2
      ∧ sizeofStruct al StencilClear.Vertex = 8 := by
  have hd : al .vector_float2 ∣ 8 := h .vector_float2
  have hp := h.pos .vector_float2
  have e8 : alignUp 8 (al .vector_float2) = 8 := alignUp_of_dvd hp hd
  have hs : FieldTy.vector_float2.size = 8 := rfl
  have hm : max 1 (al .vector_float2) = al .vector_float2 := by omega
  have ha : alignofStruct al StencilClear.Vertex = al .vector_float2 := by
    simp only [alignofStruct, StencilClear.Vertex, List.map, List.foldl, hm]
  have he : dataEnd al 0 StencilClear.Vertex.fields = 8 := by
    simp only [StencilClear.Vertex, dataEnd, alignUp_zero, hs, Nat.zero_add]
  refine ⟨?_, he, ha, ?_⟩
  · simp only [StencilClear.Vertex, placeFields, alignUp_zero]
  · rw [sizeofStruct, he, ha, e8]

theorem layout_texture_vertex {al : FieldTy → Nat} (h : DividesSize al) :
    placeFields al 0 TextureToBuffer.Vertex.fields = [(⟨"pos", .vector_float4⟩, 0)]
      ∧ dataEnd al 0 TextureToBuffer.Vertex.fields = 16
      ∧ alignofStruct al TextureToBuffer.Vertex = al .vector_float4
      ∧ sizeofStruct al TextureToBuffer.Vertex = 16 := by
  have hd : al .vector_float4 ∣ 16 := h .vector_float4
  have hp := h.pos .vector_float4
  have e16 : alignUp 16 (al .vector_float4) = 16 := alignUp_of_dvd hp hd
  have hs : FieldTy.vector_float4.size = 16 := rfl
  have hm : max 1 (al .vector_float4) = al .vector_float4 := by omega
  have ha : alignofStruct al TextureToBuffer.Vertex = al .vector_float4 := by
    simp only [alignofStruct, TextureToBuffer.Vertex, List.map, List.foldl, hm]
  have he : dataEnd al 0 TextureToBuffer.Vertex.fields = 16 := by
    simp only [TextureToBuffer.Vertex, dataEnd, alignUp_zero, hs, Nat.zero_add]
  refine ⟨?_, he, ha, ?_⟩
  · simp only [TextureToBuffer.Vertex, placeFields, alignUp_zero]
  · rw [sizeofStruct, he, ha, e16]

theorem layout_options {al : FieldTy → Nat} (h : DividesSize al) :
    placeFields al 0 Occlusion.CombineVisibilityResultOptions.fields
        = [(⟨"startOffset", .uint⟩, 0), (⟨"numOffsets", .uint⟩, 4)]
      ∧ dataEnd al 0 Occlusion.CombineVisibilityResultOptions.fields = 8
      ∧ alignofStruct al Occlusion.CombineVisibilityResultOptions = al .uint
      ∧ sizeofStruct al Occlusion.CombineVisibilityResultOptions = 8 := by
  have hd : al .uint ∣ 4 := h .uint
  have hp := h.pos .uint
  have e4 : alignUp 4 (al .uint) = 4 := alignUp_of_dvd hp hd
  have e8 : alignUp 8 (al .uint) = 8 := alignUp_of_dvd hp (Dvd.dvd.trans hd (by decide))
  have hs : FieldTy.uint.size = 4 := rfl
  have hm : max (max 1 (al .uint)) (al .uint) = al .uint := by omega
  have ha : alignofStruct al Occlusion.CombineVisibilityResultOptions = al .uint := by
    simp only [alignofStruct, Occlusion.CombineVisibilityResultOptions, List.map, List.foldl, hm]
  have he : dataEnd al 0 Occlusion.CombineVisibilityResultOptions.fields = 8 := by
    simp only [Occlusion.CombineVisibilityResultOptions, dataEnd, alignUp_zero, hs,
      Nat.zero_add, e4]
  refine ⟨?_, he, ha, ?_⟩
  · simp only [Occlusion.CombineVisibilityResultOptions, placeFields, alignUp_zero, hs,
      Nat.zero_add, e4]
  · rw [sizeofStruct, he, ha, e8]

theorem mem_allStructs {d : StructDecl} (hd : d ∈ allStructs) :
    d = Occlusion.Vertex ∨ d = StencilClear.Vertex ∨ d = TextureToBuffer.Vertex
      ∨ d = Occlusion.CombineVisibilityResultOptions := by
  simpa [allStructs] using hd

theorem size_facts {al : FieldTy → Nat} (h : DividesSize al) {d : StructDecl}
    (hd : d ∈ allStructs) :
    sizeofStruct al d = sumFieldWidths d
      ∧ dataEnd al 0 d.fields = sumFieldWidths d
      ∧ alignofStruct al d ∣ sizeofStruct al d := by
  rcases mem_allStructs hd with rfl | rfl | rfl | rfl
  · obtain ⟨-, he, ha, hs⟩ := layout_occlusion_vertex h
    rw [hs, he, ha]
    exact ⟨rfl, rfl, Dvd.dvd.trans (h .vector_float4) (by decide)⟩
  · obtain ⟨-, he, ha, hs⟩ := layout_stencil_vertex h
    rw [hs, he, ha]
    exact ⟨rfl, rfl, Dvd.dvd.trans (h .vector_float2) (by decide)⟩
  · obtain ⟨-, he, ha, hs⟩ := layout_texture_vertex h
    rw [hs, he, ha]
    exact ⟨rfl, rfl, Dvd.dvd.trans (h .vector_float4) (by decide)⟩
  · obtain ⟨-, he, ha, hs⟩ := layout_options h
    rw [hs, he, ha]
    exact ⟨rfl, rfl, Dvd.dvd.trans (h .uint) (by decide)⟩

/-! ## Bytes of a word -/

theorem fromLE32_toLE32 (w : Word32) (h0 h1 h2 h3) :
    fromLE32 ⟨w.val % 256, h0⟩ ⟨w.val / 256 % 256, h1⟩ ⟨w.val / 65536 % 256, h2⟩
      ⟨w.val / 16777216 % 256, h3⟩ = w := by
  apply Fin.ext
  simp only [fromLE32]
  have := w.isLt
  omega

theorem toLE32_fromLE32 (b0 b1 b2 b3 : Byte) :
    toLE32 (fromLE32 b0 b1 b2 b3) = [b0, b1, b2, b3] := by
  have := b0.isLt
  have := b1.isLt
  have := b2.isLt
  have := b3.isLt
  simp only [toLE32, fromLE32, List.cons.injEq, and_true]
  refine ⟨?_, ?_, ?_, ?_⟩ <;> apply Fin.ext <;> simp only <;> omega

theorem exists_cons4_of_length {α : Type} {n : Nat} {l : List α} (h : l.length = n + 4) :
    ∃ a b c d t, l = a :: b :: c :: d :: t ∧ t.length = n := by
  match l, h with
  | a :: b :: c :: d :: t, h => exact ⟨a, b, c, d, t, rfl, by simpa using h⟩

theorem length_writeBytes (bs : List Byte) (buf : List Byte) (off : Nat) :
    (writeBytes buf off bs).length = buf.length := by
  induction bs generalizing buf off with
  | nil => rfl
  | cons b bs ih => simp [writeBytes, ih]

theorem length_writeFields (ps : List (Field × Nat)) (buf : List Byte) (v : Value) :
    (writeFields buf ps v).length = buf.length := by
  induction ps generalizing buf v with
  | nil => cases v <;> rfl
  | cons p ps ih =>
    cases v with
    | nil => rfl
    | cons ws v => simp [writeFields, writeField, ih, length_writeBytes]

theorem length_write (al : FieldTy → Nat) (d : StructDecl) (v : Value) :
    (write al d v).length = sizeofStruct al d := by
  simp [write, length_writeFields]


theorem eq_of_length_one {α : Type} {l : List α} (h : l.length = 1) : ∃ a, l = [a] := by
  match l, h with
  | [a], _ => exact ⟨a, rfl⟩

theorem eq_of_length_two {α : Type} {l : List α} (h : l.length = 2) : ∃ a b, l = [a, b] := by
  match l, h with
  | [a, b], _ => exact ⟨a, b, rfl⟩

theorem eq_of_length_four {α : Type} {l : List α} (h : l.length = 4) :
    ∃ a b c d, l = [a, b, c, d] := by
  match l, h with
  | [a, b, c, d], _ => exact ⟨a, b, c, d, rfl⟩

theorem shape_cons {v : Value} {n : Nat} {ns : List Nat}
    (h : v.map List.length = n :: ns) :
    ∃ x xs, v = x :: xs ∧ x.length = n ∧ xs.map List.length = ns := by
  match v, h with
  | x :: xs, h =>
    simp only [List.map, List.cons.injEq] at h
    exact ⟨x, xs, rfl, h.1, h.2⟩

theorem shape_nil {v : Value} (h : v.map List.length = []) : v = [] := by
  simpa using h

/-! ## Round trips, struct by struct -/

theorem roundtrip_occlusion_vertex {al : FieldTy → Nat} (h : DividesSize al) (v : Value)
    (hv : WellShaped Occlusion.Vertex v) :
    read al Occlusion.Vertex (write al Occlusion.Vertex v) = v := by
  obtain ⟨hp, -, -, hs⟩ := layout_occlusion_vertex h
  simp only [WellShaped, Occlusion.Vertex, List.map, FieldTy.lanes] at hv
  obtain ⟨c, v1, rfl, hc, hv1⟩ := shape_cons hv
  obtain ⟨p, v2, rfl, hq, hv2⟩ := shape_cons hv1
  obtain rfl := shape_nil hv2
  obtain ⟨c0, c1, c2, c3, rfl⟩ := eq_of_length_four hc
  obtain ⟨p0, p1, p2, p3, rfl⟩ := eq_of_length_four hq
  simp only [read, write, hs, hp]
  simp [writeFields, writeField, writeBytes, readField, readWord, toLE32, List.range,
    List.range.loop, FieldTy.lanes, FieldTy.elem, ScalarTy.width, List.replicate,
    fromLE32_toLE32]

theorem roundtrip_stencil_vertex {al : FieldTy → Nat} (h : DividesSize al) (v : Value)
    (hv : WellShaped StencilClear.Vertex v) :
    read al StencilClear.Vertex (write al StencilClear.Vertex v) = v := by
  obtain ⟨hp, -, -, hs⟩ := layout_stencil_vertex h
  simp only [WellShaped, StencilClear.Vertex, List.map, FieldTy.lanes] at hv
  obtain ⟨p, v1, rfl, hq, hv1⟩ := shape_cons hv
  obtain rfl := shape_nil hv1
  obtain ⟨p0, p1, rfl⟩ := eq_of_length_two hq
  simp only [read, write, hs, hp]
  simp [writeFields, writeField, writeBytes, readField, readWord, toLE32, List.range,
    List.range.loop, FieldTy.lanes, FieldTy.elem, ScalarTy.width, List.replicate,
    fromLE32_toLE32]

theorem roundtrip_texture_vertex {al : FieldTy → Nat} (h : DividesSize al) (v : Value)
    (hv : WellShaped TextureToBuffer.Vertex v) :
    read al TextureToBuffer.Vertex (write al TextureToBuffer.Vertex v) = v := by
  obtain ⟨hp, -, -, hs⟩ := layout_texture_vertex h
  simp only [WellShaped, TextureToBuffer.Vertex, List.map, FieldTy.lanes] at hv
  obtain ⟨p, v1, rfl, hq, hv1⟩ := shape_cons hv
  obtain rfl := shape_nil hv1
  obtain ⟨p0, p1, p2, p3, rfl⟩ := eq_of_length_four hq
  simp only [read, write, hs, hp]
  simp [writeFields, writeField, writeBytes, readField, readWord, toLE32, List.range,
    List.range.loop, FieldTy.lanes, FieldTy.elem, ScalarTy.width, List.replicate,
    fromLE32_toLE32]

theorem roundtrip_options {al : FieldTy → Nat} (h : DividesSize al) (v : Value)
    (hv : WellShaped Occlusion.CombineVisibilityResultOptions v) :
    read al Occlusion.CombineVisibilityResultOptions
      (write al Occlusion.CombineVisibilityResultOptions v) = v := by
  obtain ⟨hp, -, -, hs⟩ := layout_options h
  simp only [WellShaped, Occlusion.CombineVisibilityResultOptions, List.map, FieldTy.lanes] at hv
  obtain ⟨s, v1, rfl, hq, hv1⟩ := shape_cons hv
  obtain ⟨n, v2, rfl, hn, hv2⟩ := shape_cons hv1
  obtain rfl := shape_nil hv2
  obtain ⟨s0, rfl⟩ := eq_of_length_one hq
  obtain ⟨n0, rfl⟩ := eq_of_length_one hn
  simp only [read, write, hs, hp]
  simp [writeFields, writeField, writeBytes, readField, readWord, toLE32, List.range,
    List.range.loop, FieldTy.lanes, FieldTy.elem, ScalarTy.width, List.replicate,
    fromLE32_toLE32]

/-! ## Reading a buffer and storing the value back -/

theorem writeback_options {al : FieldTy → Nat} (h : DividesSize al) (buf : List Byte)
    (hb : buf.length = sizeofStruct al Occlusion.CombineVisibilityResultOptions) :
    WellShaped Occlusion.CombineVisibilityResultOptions
        (read al Occlusion.CombineVisibilityResultOptions buf)
      ∧ write al Occlusion.CombineVisibilityResultOptions
        (read al Occlusion.CombineVisibilityResultOptions buf) = buf := by
  obtain ⟨hp, -, -, hs⟩ := layout_options h
  rw [hs] at hb
  obtain ⟨a0, a1, a2, a3, t0, rfl, h0⟩ := exists_cons4_of_length hb
  obtain ⟨b0, b1, b2, b3, t1, rfl, h1⟩ := exists_cons4_of_length h0
  obtain rfl := List.length_eq_zero.mp h1
  constructor
  · simp only [WellShaped, read, hp]
    rfl
  · simp only [read, write, hs, hp]
    simp only [List.map, readField, FieldTy.lanes, FieldTy.elem, ScalarTy.width, List.range,
      List.range.loop, readWord, writeFields, writeField, List.flatMap_cons, List.flatMap_nil,
      toLE32_fromLE32]
    simp [writeBytes, List.replicate]

theorem writeback_occlusion_vertex {al : FieldTy → Nat} (h : DividesSize al) (buf : List Byte)
    (hb : buf.length = sizeofStruct al Occlusion.Vertex) :
    WellShaped Occlusion.Vertex (read al Occlusion.Vertex buf)
      ∧ write al Occlusion.Vertex (read al Occlusion.Vertex buf) = buf := by
  obtain ⟨hp, -, -, hs⟩ := layout_occlusion_vertex h
  rw [hs] at hb
  obtain ⟨a0, a1, a2, a3, t0, rfl, h0⟩ := exists_cons4_of_length hb
  obtain ⟨b0, b1, b2, b3, t1, rfl, h1⟩ := exists_cons4_of_length h0
  obtain ⟨c0, c1, c2, c3, t2, rfl, h2⟩ := exists_cons4_of_length h1
  obtain ⟨d0, d1, d2, d3, t3, rfl, h3⟩ := exists_cons4_of_length h2
  obtain ⟨e0, e1, e2, e3, t4, rfl, h4⟩ := exists_cons4_of_length h3
  obtain ⟨f0, f1, f2, f3, t5, rfl, h5⟩ := exists_cons4_of_length h4
  obtain ⟨g0, g1, g2, g3, t6, rfl, h6⟩ := exists_cons4_of_length h5
  obtain ⟨h0, h1, h2, h3, t7, rfl, h7⟩ := exists_cons4_of_length h6
  obtain rfl := List.length_eq_zero.mp h7
  constructor
  · simp only [WellShaped, read, hp]
    rfl
  · simp only [read, write, hs, hp]
    simp only [List.map, readField, FieldTy.lanes, FieldTy.elem, ScalarTy.width, List.range,
      List.range.loop, readWord, writeFields, writeField, List.flatMap_cons, List.flatMap_nil,
      toLE32_fromLE32]
    simp [writeBytes, List.replicate]

theorem writeback_stencil_vertex {al : FieldTy → Nat} (h : DividesSize al) (buf : List Byte)
    (hb : buf.length = sizeofStruct al StencilClear.Vertex) :
    WellShaped StencilClear.Vertex (read al StencilClear.Vertex buf)
      ∧ write al StencilClear.Vertex (read al StencilClear.Vertex buf) = buf := by
  obtain ⟨hp, -, -, hs⟩ := layout_stencil_vertex h
  rw [hs] at hb
  obtain ⟨a0, a1, a2, a3, t0, rfl, h0⟩ := exists_cons4_of_length hb
  obtain ⟨b0, b1, b2, b3, t1, rfl, h1⟩ := exists_cons4_of_length h0
  obtain rfl := List.length_eq_zero.mp h1
  constructor
  · simp only [WellShaped, read, hp]
    rfl
  · simp only [read, write, hs, hp]
    simp only [List.map, readField, FieldTy.lanes, FieldTy.elem, ScalarTy.width, List.range,
      List.range.loop, readWord, writeFields, writeField, List.flatMap_cons, List.flatMap_nil,
      toLE32_fromLE32]
    simp [writeBytes, List.replicate]

theorem writeback_texture_vertex {al : FieldTy → Nat} (h : DividesSize al) (buf : List Byte)
    (hb : buf.length = sizeofStruct al TextureToBuffer.Vertex) :
    WellShaped TextureToBuffer.Vertex (read al TextureToBuffer.Vertex buf)
      ∧ write al TextureToBuffer.Vertex (read al TextureToBuffer.Vertex buf) = buf := by
  obtain ⟨hp, -, -, hs⟩ := layout_texture_vertex h
  rw [hs] at hb
  obtain ⟨a0, a1, a2, a3, t0, rfl, h0⟩ := exists_cons4_of_length hb
  obtain ⟨b0, b1, b2, b3, t1, rfl, h1⟩ := exists_cons4_of_length h0
  obtain ⟨c0, c1, c2, c3, t2, rfl, h2⟩ := exists_cons4_of_length h1
  obtain ⟨d0, d1, d2, d3, t3, rfl, h3⟩ := exists_cons4_of_length h2
  obtain rfl := List.length_eq_zero.mp h3
  constructor
  · simp only [WellShaped, read, hp]
    rfl
  · simp only [read, write, hs, hp]
    simp only [List.map, readField, FieldTy.lanes, FieldTy.elem, ScalarTy.width, List.range,
      List.range.loop, readWord, writeFields, writeField, List.flatMap_cons, List.flatMap_nil,
      toLE32_fromLE32]
    simp [writeBytes, List.replicate]

/-! ## Byte ranges of the fields -/

theorem ranges_of_layout {al : FieldTy → Nat} (h : DividesSize al) :
    fieldRanges al Occlusion.Vertex = [(0, 16), (16, 16)]
      ∧ fieldRanges al StencilClear.Vertex = [(0, 8)]
      ∧ fieldRanges al TextureToBuffer.Vertex = [(0, 16)]
      ∧ fieldRanges al Occlusion.CombineVisibilityResultOptions = [(0, 4), (4, 4)] := by
  refine ⟨?_, ?_, ?_, ?_⟩
  · rw [fieldRanges, (layout_occlusion_vertex h).1]; rfl
  · rw [fieldRanges, (layout_stencil_vertex h).1]; rfl
  · rw [fieldRanges, (layout_texture_vertex h).1]; rfl
  · rw [fieldRanges, (layout_options h).1]; rfl


/-! ## Agreement of two admissible alignment assignments -/

theorem gpu_dividesSize : DividesSize gpuAlign := by
  intro t
  cases t <;> decide

theorem layout_agree {host gpu : FieldTy → Nat} (hh : DividesSize host)
    (hg : DividesSize gpu) {d : StructDecl} (hd : d ∈ allStructs) :
    placeFields host 0 d.fields = placeFields gpu 0 d.fields
      ∧ sizeofStruct host d = sizeofStruct gpu d := by
  rcases mem_allStructs hd with rfl | rfl | rfl | rfl
  · obtain ⟨p1, -, -, s1⟩ := layout_occlusion_vertex hh
    obtain ⟨p2, -, -, s2⟩ := layout_occlusion_vertex hg
    exact ⟨p1.trans p2.symm, s1.trans s2.symm⟩
  · obtain ⟨p1, -, -, s1⟩ := layout_stencil_vertex hh
    obtain ⟨p2, -, -, s2⟩ := layout_stencil_vertex hg
    exact ⟨p1.trans p2.symm, s1.trans s2.symm⟩
  · obtain ⟨p1, -, -, s1⟩ := layout_texture_vertex hh
    obtain ⟨p2, -, -, s2⟩ := layout_texture_vertex hg
    exact ⟨p1.trans p2.symm, s1.trans s2.symm⟩
  · obtain ⟨p1, -, -, s1⟩ := layout_options hh
    obtain ⟨p2, -, -, s2⟩ := layout_options hg
    exact ⟨p1.trans p2.symm, s1.trans s2.symm⟩

theorem roundtrip_of_mem {al : FieldTy → Nat} (h : DividesSize al) {d : StructDecl}
    (hd : d ∈ allStructs) (v : Value) (hv : WellShaped d v) :
    read al d (write al d v) = v := by
  rcases mem_allStructs hd with rfl | rfl | rfl | rfl
  · exact roundtrip_occlusion_vertex h v hv
  · exact roundtrip_stencil_vertex h v hv
  · exact roundtrip_texture_vertex h v hv
  · exact roundtrip_options h v hv

/-! ## The claims -/

/-- C1: under the sequential layout rule, with any alignments that divide the
field sizes (the natural ones among them), each of the four structs is exactly
as large as the sum of its field widths, and so is the extent of its fields, so
no padding is inserted: the occlusion `Vertex` is 32 bytes, the stencil-clear
`Vertex` 8 bytes, the texture-to-buffer `Vertex` 16 bytes and
`CombineVisibilityResultOptions` 8 bytes. -/
theorem sizeof_eq_sum_of_field_widths (al : FieldTy → Nat) (h : DividesSize al) :
    (∀ d ∈ allStructs,
        sizeofStruct al d = sumFieldWidths d ∧ dataEnd al 0 d.fields = sumFieldWidths d)
      ∧ sizeofStruct al Occlusion.Vertex = 32
      ∧ sizeofStruct al StencilClear.Vertex = 8
      ∧ sizeofStruct al TextureToBuffer.Vertex = 16
      ∧ sizeofStruct al Occlusion.CombineVisibilityResultOptions = 8 :=
  ⟨fun _ hd => ⟨(size_facts h hd).1, (size_facts h hd).2.1⟩,
    (layout_occlusion_vertex h).2.2.2, (layout_stencil_vertex h).2.2.2,
    (layout_texture_vertex h).2.2.2, (layout_options h).2.2.2⟩

/-- Witness of C1 at the natural alignments. -/
theorem sizeof_eq_sum_of_field_widths_witness :
    DividesSize FieldTy.align
      ∧ sizeofStruct FieldTy.align Occlusion.Vertex = 32
      ∧ sizeofStruct FieldTy.align StencilClear.Vertex = 8
      ∧ sizeofStruct FieldTy.align TextureToBuffer.Vertex = 16
      ∧ sizeofStruct FieldTy.align Occlusion.CombineVisibilityResultOptions = 8 :=
  ⟨natural_dividesSize,
    (sizeof_eq_sum_of_field_widths FieldTy.align natural_dividesSize).2⟩

/-- C2: every field sits at the cumulative offset of the fields declared before
it: in the occlusion `Vertex` `color` is at 0 and `pos` at 16, in the other two
`Vertex` structs `pos` is at 0, and in `CombineVisibilityResultOptions`
`startOffset` is at 0 and `numOffsets` at 4. -/
theorem fields_at_cumulative_offsets (al : FieldTy → Nat) (h : DividesSize al) :
    (∀ d ∈ allStructs,
        (placeFields al 0 d.fields).map Prod.snd = cumulativeOffsets 0 d.fields)
      ∧ offsetofField al Occlusion.Vertex "color" = some 0
      ∧ offsetofField al Occlusion.Vertex "pos" = some 16
      ∧ offsetofField al StencilClear.Vertex "pos" = some 0
      ∧ offsetofField al TextureToBuffer.Vertex "pos" = some 0
      ∧ offsetofField al Occlusion.CombineVisibilityResultOptions "startOffset" = some 0
      ∧ offsetofField al Occlusion.CombineVisibilityResultOptions "numOffsets" = some 4 := by
  have hA := (layout_occlusion_vertex h).1
  have hB := (layout_stencil_vertex h).1
  have hC := (layout_texture_vertex h).1
  have hO := (layout_options h).1
  refine ⟨?_, ?_, ?_, ?_, ?_, ?_, ?_⟩
  · intro d hd
    rcases mem_allStructs hd with rfl | rfl | rfl | rfl
    · rw [hA]; rfl
    · rw [hB]; rfl
    · rw [hC]; rfl
    · rw [hO]; rfl
  · rw [offsetofField, hA]; decide
  · rw [offsetofField, hA]; decide
  · rw [offsetofField, hB]; decide
  · rw [offsetofField, hC]; decide
  · rw [offsetofField, hO]; decide
  · rw [offsetofField, hO]; decide

/-- Witness of C2 at the natural alignments. -/
theorem fields_at_cumulative_offsets_witness :
    DividesSize FieldTy.align
      ∧ offsetofField FieldTy.align Occlusion.Vertex "color" = some 0
      ∧ offsetofField FieldTy.align Occlusion.Vertex "pos" = some 16
      ∧ offsetofField FieldTy.align StencilClear.Vertex "pos" = some 0
      ∧ offsetofField FieldTy.align TextureToBuffer.Vertex "pos" = some 0
      ∧ offsetofField FieldTy.align Occlusion.CombineVisibilityResultOptions "startOffset"
          = some 0
      ∧ offsetofField FieldTy.align Occlusion.CombineVisibilityResultOptions "numOffsets"
          = some 4 :=
  ⟨natural_dividesSize,
    (fields_at_cumulative_offsets FieldTy.align natural_dividesSize).2⟩

/-- C3: for each of the four structs and every value of it, components taken
as 32-bit patterns, storing the value into a byte buffer in the struct's layout
and loading the buffer back field by field returns exactly the original
value. -/
theorem read_write_roundtrip (al : FieldTy → Nat) (h : DividesSize al) (d : StructDecl)
    (hd : d ∈ allStructs) (v : Value) (hv : WellShaped d v) :
    read al d (write al d v) = v := by
  rcases mem_allStructs hd with rfl | rfl | rfl | rfl
  · exact roundtrip_occlusion_vertex h v hv
  · exact roundtrip_stencil_vertex h v hv
  · exact roundtrip_texture_vertex h v hv
  · exact roundtrip_options h v hv

/-- Witness of C3: the texture-to-buffer `Vertex` with `pos = (1.0, 2.0, 3.0, 4.0)`,
the components given by their float32 bit patterns. -/
theorem read_write_roundtrip_witness :
    DividesSize FieldTy.align
      ∧ TextureToBuffer.Vertex ∈ allStructs
      ∧ WellShaped TextureToBuffer.Vertex [[0x3F800000, 0x40000000, 0x40400000, 0x40800000]]
      ∧ read FieldTy.align TextureToBuffer.Vertex
          (write FieldTy.align TextureToBuffer.Vertex
            [[0x3F800000, 0x40000000, 0x40400000, 0x40800000]])
        = [[0x3F800000, 0x40000000, 0x40400000, 0x40800000]] :=
  ⟨natural_dividesSize, by decide, by decide,
    read_write_roundtrip FieldTy.align natural_dividesSize TextureToBuffer.Vertex (by decide)
      [[0x3F800000, 0x40000000, 0x40400000, 0x40800000]] (by decide)⟩

/-- C4: the declared fields of each struct, in order, with their component
counts and element kinds, are: occlusion `Vertex` = `color` (4 x float32), `pos`
(4 x float32); stencil-clear `Vertex` = `pos` (2 x float32); texture-to-buffer
`Vertex` = `pos` (4 x float32); `CombineVisibilityResultOptions` = `startOffset`
(uint32), `numOffsets` (uint32); and only the occlusion header declares
`CombineVisibilityResultOptions`. -/
theorem declared_fields_exact :
    Occlusion.Vertex.fields.map (fun f => (f.name, f.ty.lanes, f.ty.elem, f.ty.elem.width))
        = [("color", 4, .float32, 4), ("pos", 4, .float32, 4)]
      ∧ StencilClear.Vertex.fields.map
          (fun f => (f.name, f.ty.lanes, f.ty.elem, f.ty.elem.width))
        = [("pos", 2, .float32, 4)]
      ∧ TextureToBuffer.Vertex.fields.map
          (fun f => (f.name, f.ty.lanes, f.ty.elem, f.ty.elem.width))
        = [("pos", 4, .float32, 4)]
      ∧ Occlusion.CombineVisibilityResultOptions.fields.map
          (fun f => (f.name, f.ty.lanes, f.ty.elem, f.ty.elem.width))
        = [("startOffset", 1, .uint32, 4), ("numOffsets", 1, .uint32, 4)]
      ∧ headers.map (fun h => declares h "CombineVisibilityResultOptions")
        = [true, false, false]
      ∧ headers.filter (fun h => declares h "CombineVisibilityResultOptions")
        = [Occlusion.ShaderDefinitions] := by
  decide

/-- C5: the bytes of a `CombineVisibilityResultOptions` value are 8 for every
`startOffset` and `numOffsets`, the same count as for `startOffset = 0`,
`numOffsets = 0`. -/
theorem options_footprint_constant (al : FieldTy → Nat) (h : DividesSize al)
    (startOffset numOffsets : Word32) :
    (write al Occlusion.CombineVisibilityResultOptions [[startOffset], [numOffsets]]).length = 8
      ∧ (write al Occlusion.CombineVisibilityResultOptions [[0], [0]]).length = 8 := by
  rw [length_write, length_write, (layout_options h).2.2.2]
  exact ⟨rfl, rfl⟩

/-- Witness of C5: the largest field values, at the natural alignments. -/
theorem options_footprint_constant_witness :
    DividesSize FieldTy.align
      ∧ (write FieldTy.align Occlusion.CombineVisibilityResultOptions
          [[0xFFFFFFFF], [0xFFFFFFFF]]).length = 8
      ∧ (write FieldTy.align Occlusion.CombineVisibilityResultOptions [[0], [0]]).length = 8 :=
  ⟨natural_dividesSize,
    options_footprint_constant FieldTy.align natural_dividesSize 0xFFFFFFFF 0xFFFFFFFF⟩


/-- C6: for each of the four structs the layout the host side computes (size,
alignment and every field's name, offset and width, by the C rule over the host
field types) equals the layout the GPU side computes for the same declaration
over the shading-language types; and whatever alignments the two sides use, as
long as each divides the type's size, both place every field at the same offset
in a struct of the same size, store a value as the same bytes, read a buffer as
the same value, and the GPU side reads back what the host side stored. -/
theorem host_gpu_layout_agree (host gpu : FieldTy → Nat) (hh : DividesSize host)
    (hg : DividesSize gpu) (d : StructDecl) (hd : d ∈ allStructs) :
    hostLayout d = gpuLayout d
      ∧ placeFields host 0 d.fields = placeFields gpu 0 d.fields
      ∧ sizeofStruct host d = sizeofStruct gpu d
      ∧ fieldRanges host d = fieldRanges gpu d
      ∧ (∀ v : Value, write host d v = write gpu d v)
      ∧ (∀ buf : List Byte, read host d buf = read gpu d buf)
      ∧ (∀ v : Value, WellShaped d v → read gpu d (write host d v) = v) := by
  obtain ⟨hp, hs⟩ := layout_agree hh hg hd
  refine ⟨?_, hp, hs, ?_, ?_, ?_, ?_⟩
  · rcases mem_allStructs hd with rfl | rfl | rfl | rfl <;> decide
  · rw [fieldRanges, fieldRanges, hp]
  · intro v
    rw [write, write, hp, hs]
  · intro buf
    rw [read, read, hp]
  · intro v hv
    have hw : write host d v = write gpu d v := by rw [write, write, hp, hs]
    rw [hw]
    exact roundtrip_of_mem hg hd v hv

/-- Witness of C6: the occlusion `Vertex`, the host side at the alignments of
the simd types and the GPU side at those of the shading-language types. -/
theorem host_gpu_layout_agree_witness :
    DividesSize FieldTy.align ∧ DividesSize gpuAlign
      ∧ Occlusion.Vertex ∈ allStructs
      ∧ hostLayout Occlusion.Vertex
          = { size := 32, align := 16, fields := [("color", 0, 16), ("pos", 16, 16)] }
      ∧ hostLayout Occlusion.Vertex = gpuLayout Occlusion.Vertex
      ∧ write FieldTy.align Occlusion.Vertex [[1, 2, 3, 4], [5, 6, 7, 8]]
          = write gpuAlign Occlusion.Vertex [[1, 2, 3, 4], [5, 6, 7, 8]] :=
  ⟨natural_dividesSize, gpu_dividesSize, by decide, by decide,
    (host_gpu_layout_agree FieldTy.align gpuAlign natural_dividesSize gpu_dividesSize
      Occlusion.Vertex (by decide)).1,
    (host_gpu_layout_agree FieldTy.align gpuAlign natural_dividesSize gpu_dividesSize
      Occlusion.Vertex (by decide)).2.2.2.2.1 [[1, 2, 3, 4], [5, 6, 7, 8]]⟩

/-- C7, as stated, fails: the `Vertex` struct of the occlusion header is made of
8 float components (two 4-component vectors), not of between 2 and 4. -/
theorem occlusion_vertex_has_eight_components :
    Occlusion.ShaderDefinitions ∈ headers
      ∧ lookup Occlusion.ShaderDefinitions "Vertex" = some Occlusion.Vertex
      ∧ componentCount Occlusion.Vertex = 8
      ∧ ¬ (2 ≤ componentCount Occlusion.Vertex ∧ componentCount Occlusion.Vertex ≤ 4) := by
  decide

/-- C7, amended: each of the three headers declares a `Vertex` struct whose
every field is a vector of between 2 and 4 float32 components: the occlusion
`Vertex` has two fields of 4 components (8 in all), the stencil-clear `Vertex`
one field of 2 and the texture-to-buffer `Vertex` one field of 4; and exactly
one of the three headers, the occlusion one, declares a further struct besides
`Vertex`, the options struct. -/
theorem vertex_fields_two_to_four_floats (h : List StructDecl) (hh : h ∈ headers) :
    (∃ d, lookup h "Vertex" = some d
        ∧ d.fields ≠ []
        ∧ (∀ f ∈ d.fields, f.ty.elem = .float32 ∧ 2 ≤ f.ty.lanes ∧ f.ty.lanes ≤ 4))
      ∧ headers.map (fun k => (lookup k "Vertex").map
            (fun d => d.fields.map (fun f => (f.ty.lanes, f.ty.elem))))
          = [some [(4, .float32), (4, .float32)], some [(2, .float32)],
              some [(4, .float32)]]
      ∧ headers.map (fun k => (lookup k "Vertex").map componentCount)
          = [some 8, some 2, some 4]
      ∧ headers.map (fun k => k.map (fun d => d.name))
          = [["Vertex", "CombineVisibilityResultOptions"], ["Vertex"], ["Vertex"]]
      ∧ (headers.filter (fun k => k.any (fun d => d.name != "Vertex"))).length = 1
      ∧ (headers.filter (fun k => declares k "CombineVisibilityResultOptions")).length = 1 := by
  refine ⟨?_, by decide, by decide, by decide, by decide, by decide⟩
  simp only [headers, List.mem_cons, List.mem_singleton, List.not_mem_nil, or_false] at hh
  rcases hh with rfl | rfl | rfl
  · exact ⟨Occlusion.Vertex, by decide⟩
  · exact ⟨StencilClear.Vertex, by decide⟩
  · exact ⟨TextureToBuffer.Vertex, by decide⟩

/-- Witness of the amended C7 at the occlusion header: its `Vertex` has exactly
two fields of 4 float32 components, 8 components in all. -/
theorem vertex_fields_two_to_four_floats_witness :
    Occlusion.ShaderDefinitions ∈ headers
      ∧ (∃ d, lookup Occlusion.ShaderDefinitions "Vertex" = some d
        ∧ d.fields ≠ []
        ∧ (∀ f ∈ d.fields, f.ty.elem = .float32 ∧ 2 ≤ f.ty.lanes ∧ f.ty.lanes ≤ 4))
      ∧ headers.map (fun k => (lookup k "Vertex").map componentCount)
          = [some 8, some 2, some 4] :=
  ⟨by decide, (vertex_fields_two_to_four_floats Occlusion.ShaderDefinitions (by decide)).1,
    (vertex_fields_two_to_four_floats Occlusion.ShaderDefinitions (by decide)).2.2.1⟩

/-- C8: each struct's size is a multiple of its alignment (at the natural
alignments: 32 and 16, 8 and 8, 16 and 16, 8 and 4) and nothing follows the last
field, so in an array element `i` starts at `i` times the sum of the field
widths, consecutive elements touch, every element lies inside the array, and
`n` elements occupy `n` times the sum of the field widths. -/
theorem arrays_tightly_packed (al : FieldTy → Nat) (h : DividesSize al) (d : StructDecl)
    (hd : d ∈ allStructs) (n i : Nat) (hi : i < n) :
    allStructs.map (fun s => (sizeofStruct FieldTy.align s, alignofStruct FieldTy.align s))
        = [(32, 16), (8, 8), (16, 16), (8, 4)]
      ∧ sizeofStruct al d % alignofStruct al d = 0
      ∧ tailPadding al d = 0
      ∧ elemOffset al d i = i * sizeofStruct al d
      ∧ elemOffset al d i = i * sumFieldWidths d
      ∧ elemOffset al d (i + 1) = elemOffset al d i + sumFieldWidths d
      ∧ elemOffset al d i + sumFieldWidths d ≤ arrayBytes al d n
      ∧ arrayBytes al d n = n * sumFieldWidths d := by
  obtain ⟨hs, he, hm⟩ := size_facts h hd
  refine ⟨by decide, Nat.mod_eq_zero_of_dvd hm, ?_, rfl, ?_, ?_, ?_, ?_⟩
  · rw [tailPadding, hs, he, Nat.sub_self]
  · rw [elemOffset, hs]
  · rw [elemOffset, elemOffset, hs, Nat.add_mul, Nat.one_mul]
  · rw [elemOffset, arrayBytes, hs]
    calc i * sumFieldWidths d + sumFieldWidths d = (i + 1) * sumFieldWidths d := by
          rw [Nat.add_mul, Nat.one_mul]
      _ ≤ n * sumFieldWidths d := Nat.mul_le_mul_right _ hi
  · rw [arrayBytes, hs]

/-- Witness of C8: element 2 of a 3-element array of occlusion `Vertex`, at the
natural alignments, starts at byte 64 and the array occupies 96 bytes. -/
theorem arrays_tightly_packed_witness :
    DividesSize FieldTy.align ∧ Occlusion.Vertex ∈ allStructs ∧ 2 < 3
      ∧ sizeofStruct FieldTy.align Occlusion.Vertex
          % alignofStruct FieldTy.align Occlusion.Vertex = 0
      ∧ elemOffset FieldTy.align Occlusion.Vertex 2 = 64
      ∧ arrayBytes FieldTy.align Occlusion.Vertex 3 = 96 :=
  ⟨natural_dividesSize, by decide, by decide,
    (arrays_tightly_packed FieldTy.align natural_dividesSize Occlusion.Vertex (by decide) 3 2
      (by decide)).2.1,
    by decide, by decide⟩

/-- C9: the fields of each struct occupy pairwise disjoint byte ranges that
cover every byte of the struct, and the layout is a bijection between struct
values and buffers of the struct's size: a buffer of that size, read as the
struct and stored back, is reproduced byte for byte, and a value stored and
read back is reproduced component for component. -/
theorem layout_bijection (al : FieldTy → Nat) (h : DividesSize al) (d : StructDecl)
    (hd : d ∈ allStructs) :
    (fieldRanges al d).Pairwise RangesDisjoint
      ∧ (∀ b, b < sizeofStruct al d → ∃ r ∈ fieldRanges al d, r.1 ≤ b ∧ b < r.1 + r.2)
      ∧ (∀ buf : List Byte, buf.length = sizeofStruct al d →
          WellShaped d (read al d buf) ∧ write al d (read al d buf) = buf)
      ∧ (∀ v : Value, WellShaped d v →
          (write al d v).length = sizeofStruct al d ∧ read al d (write al d v) = v) := by
  obtain ⟨rA, rB, rC, rO⟩ := ranges_of_layout h
  rcases mem_allStructs hd with rfl | rfl | rfl | rfl
  · refine ⟨?_, ?_, fun buf hb => writeback_occlusion_vertex h buf hb,
      fun v hv => ⟨length_write al _ v, roundtrip_occlusion_vertex h v hv⟩⟩
    · rw [rA]; simp [RangesDisjoint]
    · intro b hb
      rw [(layout_occlusion_vertex h).2.2.2] at hb
      rw [rA]
      simp only [List.mem_cons, List.mem_singleton, List.not_mem_nil, or_false,
        exists_eq_or_imp, exists_eq_left]
      omega
  · refine ⟨?_, ?_, fun buf hb => writeback_stencil_vertex h buf hb,
      fun v hv => ⟨length_write al _ v, roundtrip_stencil_vertex h v hv⟩⟩
    · rw [rB]; simp [RangesDisjoint]
    · intro b hb
      rw [(layout_stencil_vertex h).2.2.2] at hb
      rw [rB]
      simp only [List.mem_cons, List.mem_singleton, List.not_mem_nil, or_false,
        exists_eq_or_imp, exists_eq_left]
      omega
  · refine ⟨?_, ?_, fun buf hb => writeback_texture_vertex h buf hb,
      fun v hv => ⟨length_write al _ v, roundtrip_texture_vertex h v hv⟩⟩
    · rw [rC]; simp [RangesDisjoint]
    · intro b hb
      rw [(layout_texture_vertex h).2.2.2] at hb
      rw [rC]
      simp only [List.mem_cons, List.mem_singleton, List.not_mem_nil, or_false,
        exists_eq_or_imp, exists_eq_left]
      omega
  · refine ⟨?_, ?_, fun buf hb => writeback_options h buf hb,
      fun v hv => ⟨length_write al _ v, roundtrip_options h v hv⟩⟩
    · rw [rO]; simp [RangesDisjoint]
    · intro b hb
      rw [(layout_options h).2.2.2] at hb
      rw [rO]
      simp only [List.mem_cons, List.mem_singleton, List.not_mem_nil, or_false,
        exists_eq_or_imp, exists_eq_left]
      omega

/-- Witness of C9: an 8-byte buffer read as `CombineVisibilityResultOptions` and
stored back. -/
theorem layout_bijection_witness :
    DividesSize FieldTy.align
      ∧ Occlusion.CombineVisibilityResultOptions ∈ allStructs
      ∧ ([1, 2, 3, 4, 5, 6, 7, 8] : List Byte).length
          = sizeofStruct FieldTy.align Occlusion.CombineVisibilityResultOptions
      ∧ read FieldTy.align Occlusion.CombineVisibilityResultOptions [1, 2, 3, 4, 5, 6, 7, 8]
          = [[0x04030201], [0x08070605]]
      ∧ write FieldTy.align Occlusion.CombineVisibilityResultOptions
          (read FieldTy.align Occlusion.CombineVisibilityResultOptions [1, 2, 3, 4, 5, 6, 7, 8])
        = [1, 2, 3, 4, 5, 6, 7, 8] :=
  ⟨natural_dividesSize, by decide, by decide, by decide,
    ((layout_bijection FieldTy.align natural_dividesSize
      Occlusion.CombineVisibilityResultOptions (by decide)).2.2.1
        [1, 2, 3, 4, 5, 6, 7, 8] (by decide)).2⟩

end MetalTests
